import Mathlib

/-!
Verification of the block-builder / precompile core of an Ethereum-compatible
execution engine (Rust sources: `block_builder.rs`, `engines.rs`, `pob.rs`,
`poe.rs`, `precompile.rs`).

Machine integers are modelled as `Nat` with explicit `% 2^64` (u64, wrapping)
or `% 2^256` bounds-checking (the Rust `U256` type panics on overflow, which we
model with an explicit error constructor).  External cryptographic primitives
(keccak, secp256k1 recovery, bn254 group addition) are taken as function
parameters.  Rust panics (`unwrap`, `assert!`, slice-index, arithmetic) are
modelled as explicit error values of an `Except`.
-/

set_option maxRecDepth 4000

deriving instance DecidableEq for Except

/-- `2^64`, the modulus of Rust `u64` arithmetic. -/
def U64MOD : Nat := 2 ^ 64

/-- `2^256`, the modulus of the Rust `U256` type (which panics on overflow). -/
def U256MOD : Nat := 2 ^ 256

/-- Big-endian interpretation of a byte sequence, as in `U256::from_big_endian`
and `BigUint::from_bytes_be`. -/
def beNat (bytes : List Nat) : Nat := bytes.foldl (fun acc b => acc * 256 + b) 0

/-- Little-endian interpretation of a byte sequence (`u64::from_le_bytes`). -/
def leNat (bytes : List Nat) : Nat := bytes.foldr (fun b acc => acc * 256 + b) 0

/-! ## BlockBuilder (`block_builder.rs`) with the `Ethereum` engine (`engines.rs`)

State relevant to gas accounting: the header's `gas_limit` and `gas_used`
fields, `cumulative_gas_used`, and the `txs` / `receipts` vectors.  The
transaction executor (`tx_executor.rs`) is external to the claims; a commit
carries the executor's outcome (`none` = `ExecuteError`, `some g` = success
with `used_gas = g`). -/

/-- The gas-relevant fields of `eth_types::Receipt` as assembled by
`Ethereum::build_receipt` (engines.rs:85-110). -/
structure Receipt where
  gas_used : Nat
  cumulative_gas_used : Nat
deriving DecidableEq

/-- Gas-accounting state of `BlockBuilder` (block_builder.rs:58-74).
Transactions are represented by their `gas_limit` (the only field the gas
claims inspect). -/
structure BlockBuilder where
  header_gas_limit : Nat
  header_gas_used : Nat
  cumulative_gas_used : Nat
  txs : List Nat
  receipts : List Receipt
deriving DecidableEq

/-- `CommitError` (block_builder.rs:276-280).  The payload of `Execute` is
irrelevant to the claims. -/
inductive CommitError where
  | NotEnoughGasLimit (gas_pool gas_limit : Nat)
  | Execute
deriving DecidableEq

/-- `BlockBuilder::new` (block_builder.rs:82-104): `cumulative_gas_used = 0`,
empty `txs` and `receipts`; the header comes from the caller. -/
def BlockBuilder.new (header_gas_limit header_gas_used : Nat) : BlockBuilder :=
  { header_gas_limit := header_gas_limit
    header_gas_used := header_gas_used
    cumulative_gas_used := 0
    txs := []
    receipts := [] }

/-- `cost_gas` (block_builder.rs:155-157): wrapping u64 `+=`. -/
def BlockBuilder.cost_gas (cum gas : Nat) : Nat := (cum + gas) % U64MOD

/-- `refund_gas` (block_builder.rs:151-153): wrapping u64 `-=`,
i.e. two's-complement subtraction. -/
def BlockBuilder.refund_gas (cum gas : Nat) : Nat :=
  (cum + (U64MOD - gas % U64MOD)) % U64MOD

/-- `Ethereum::build_receipt` (engines.rs:85-110) as written in the source:
`gas_used = result.used_gas` and
`cumulative_gas_used = header.gas_used + result.used_gas` (an `SU64`
addition, hence mod `2^64`).  Note this impl does not take the builder's
`cumulative_gas_used` even though the `Engine` trait
(block_builder.rs:30-37) declares that parameter. -/
def ethereumBuildReceipt (header_gas_used used_gas : Nat) : Receipt :=
  { gas_used := used_gas
    cumulative_gas_used := (header_gas_used + used_gas) % U64MOD }

/-- `BlockBuilder::execute_tx` (block_builder.rs:178-216).  `no_gas_fee` is the
flag left in the `TxContext` after `engine.tx_context` ran (the `Ethereum`
engine keeps the initial `false`).  `exec` is the outcome of the external
`TxExecutor`: the gas-pool check runs before it. -/
def BlockBuilder.execute_tx (b : BlockBuilder) (no_gas_fee : Bool)
    (tx_gas_limit : Nat) (exec : Option Nat) : Except CommitError Nat :=
  if no_gas_fee = false then
    let gas_pool := b.header_gas_limit - b.cumulative_gas_used
    if gas_pool < tx_gas_limit then
      .error (.NotEnoughGasLimit gas_pool tx_gas_limit)
    else
      match exec with
      | some used_gas => .ok used_gas
      | none => .error .Execute
  else
    match exec with
    | some used_gas => .ok used_gas
    | none => .error .Execute

/-- `BlockBuilder::commit` (block_builder.rs:131-149): on success build the
receipt (with the pre-commit header), `cost_gas`, push receipt and tx; on
failure return the error with no state change. -/
def BlockBuilder.commit (b : BlockBuilder) (no_gas_fee : Bool)
    (tx_gas_limit : Nat) (exec : Option Nat) :
    Except CommitError (BlockBuilder × Receipt) :=
  match b.execute_tx no_gas_fee tx_gas_limit exec with
  | .error e => .error e
  | .ok used_gas =>
      let receipt := ethereumBuildReceipt b.header_gas_used used_gas
      .ok ({ b with
              cumulative_gas_used := BlockBuilder.cost_gas b.cumulative_gas_used used_gas
              receipts := b.receipts ++ [receipt]
              txs := b.txs ++ [tx_gas_limit] },
           receipt)

/-- `BlockBuilder::truncate_and_revert` (block_builder.rs:114-125): refund the
gas of every receipt past `tx_len`, then truncate `txs` and `receipts`.
(The `statedb.revert` call touches no gas state and is not modelled; Rust
panics when `tx_len` exceeds the receipt count, where this total model is a
no-op.) -/
def BlockBuilder.truncate_and_revert (b : BlockBuilder) (tx_len : Nat) :
    BlockBuilder :=
  let refund_gases := (b.receipts.drop tx_len).map Receipt.gas_used
  { b with
      cumulative_gas_used :=
        refund_gases.foldl BlockBuilder.refund_gas b.cumulative_gas_used
      txs := b.txs.take tx_len
      receipts := b.receipts.take tx_len }

/-- `BlockBuilder::finalize_header` (block_builder.rs:159-164):
`header.set_gas_used(cumulative_gas_used.into())` (`u64 → SU64` is lossless).
The `state_root` flush is external state and not modelled. -/
def BlockBuilder.finalize_header (b : BlockBuilder) : BlockBuilder :=
  { b with header_gas_used := b.cumulative_gas_used }

/-- One builder operation: a `commit` call (with its context flag, the tx's
gas limit and the executor outcome) or a `truncate_and_revert` call. -/
inductive BuilderOp where
  | commit (no_gas_fee : Bool) (tx_gas_limit : Nat) (exec : Option Nat)
  | truncate (tx_len : Nat)

/-- Apply one operation; a failing `commit` leaves the builder unchanged
(block_builder.rs:146 returns before any mutation). -/
def BlockBuilder.applyOp (b : BlockBuilder) : BuilderOp → BlockBuilder
  | .commit ngf tgl exec =>
      match b.commit ngf tgl exec with
      | .ok (b2, _) => b2
      | .error _ => b
  | .truncate n => b.truncate_and_revert n

/-- Apply a sequence of operations in order. -/
def BlockBuilder.applyOps (b : BlockBuilder) (ops : List BuilderOp) : BlockBuilder :=
  ops.foldl BlockBuilder.applyOp b

/-- Sum of `gas_used` over the receipts currently held. -/
def BlockBuilder.receiptsGasSum (b : BlockBuilder) : Nat :=
  (b.receipts.map Receipt.gas_used).sum

example :
    (BlockBuilder.applyOps (BlockBuilder.new 30000000 0)
      [.commit false 21000 (some 21000),
       .commit false 50000 (some 50000)]).cumulative_gas_used = 71000 := by
  decide

example :
    (BlockBuilder.applyOps (BlockBuilder.new 30000000 0)
      [.commit false 21000 (some 21000),
       .commit false 50000 (some 50000),
       .truncate 1]).cumulative_gas_used = 21000 := by
  decide

/-! ## Pob (`pob.rs`)

`mpt_nodes` is a `Vec<HexBytes>`; `state_hash()` (pob.rs:60-75) sorts it
in place (`sort_unstable`, i.e. ascending byte-lexicographic `Ord` on byte
vectors), hashes the concatenation of the nodes in order, and caches the
result.  The keccak primitive is an external parameter. -/

/-- The `Ord` order of Rust `Vec<u8>` / `HexBytes`: ascending lexicographic,
with a proper prefix smaller than its extensions. -/
def lexLe : List Nat → List Nat → Bool
  | [], _ => true
  | _ :: _, [] => false
  | a :: as_, b :: bs => if a < b then true else if b < a then false else lexLe as_ bs

/-- `lexLe` as a decidable proposition. -/
def LexLe (a b : List Nat) : Prop := lexLe a b = true

instance : DecidableRel LexLe := fun a b =>
  inferInstanceAs (Decidable (lexLe a b = true))

theorem lexLe_total (a b : List Nat) : lexLe a b = true ∨ lexLe b a = true := by
  induction a generalizing b with
  | nil => exact Or.inl rfl
  | cons x xs ih =>
    cases b with
    | nil => exact Or.inr rfl
    | cons y ys =>
      by_cases hxy : x < y
      · left; simp [lexLe, hxy]
      · by_cases hyx : y < x
        · right; simp [lexLe, hyx, Nat.not_lt.mpr (Nat.le_of_lt hyx)]
        · have hxy2 : x = y := Nat.le_antisymm (Nat.not_lt.mp hyx) (Nat.not_lt.mp hxy)
          subst hxy2
          rcases ih ys with h | h
          · left; simp [lexLe, h]
          · right; simp [lexLe, h]

theorem lexLe_trans (a b c : List Nat) (hab : lexLe a b = true)
    (hbc : lexLe b c = true) : lexLe a c = true := by
  induction a generalizing b c with
  | nil => rfl
  | cons x xs ih =>
    cases b with
    | nil => simp [lexLe] at hab
    | cons y ys =>
      cases c with
      | nil => simp [lexLe] at hbc
      | cons z zs =>
        simp only [lexLe] at hab hbc ⊢
        by_cases hxy : x < y
        · by_cases hyz : y < z
          · simp [Nat.lt_trans hxy hyz]
          · by_cases hzy : z < y
            · simp [lexLe] at hbc; omega
            · have : y = z := by omega
              subst this; simp [hxy]
        · by_cases hyx : y < x
          · simp [hxy, hyx] at hab
          · have hxy2 : x = y := by omega
            subst hxy2
            simp only [Nat.lt_irrefl, if_false] at hab
            by_cases hyz : x < z
            · simp [hyz]
            · by_cases hzy : z < x
              · simp [hyz, hzy] at hbc
              · have : x = z := by omega
                subst this
                simp only [Nat.lt_irrefl, if_false] at hbc ⊢
                exact ih ys zs hab hbc

theorem lexLe_antisymm (a b : List Nat) (hab : lexLe a b = true)
    (hba : lexLe b a = true) : a = b := by
  induction a generalizing b with
  | nil =>
    cases b with
    | nil => rfl
    | cons y ys => simp [lexLe] at hba
  | cons x xs ih =>
    cases b with
    | nil => simp [lexLe] at hab
    | cons y ys =>
      simp only [lexLe] at hab hba
      by_cases hxy : x < y
      · simp [Nat.not_lt.mpr (Nat.le_of_lt hxy), Nat.lt_irrefl, hxy] at hba
      · by_cases hyx : y < x
        · simp [hxy, hyx] at hab
        · have hxy2 : x = y := by omega
          subst hxy2
          simp only [Nat.lt_irrefl, if_false] at hab hba
          rw [ih ys hab hba]

instance : IsTotal (List Nat) LexLe := ⟨lexLe_total⟩

instance : IsTrans (List Nat) LexLe := ⟨lexLe_trans⟩

instance : IsAntisymm (List Nat) LexLe := ⟨lexLe_antisymm⟩

/-- Sorting `mpt_nodes` as `sort_unstable` does (pob.rs:65).  Any correct sort
for this total order produces the same list (the order is antisymmetric), so
the structural `insertionSort` stands in for Rust's pattern-defeating
quicksort. -/
def sortNodes (nodes : List (List Nat)) : List (List Nat) :=
  List.insertionSort LexLe nodes

/-- The `Pob` fields relevant to `state_hash` (pob.rs:8-14): the witness node
list and the cached hash.  `α` is the hash type (32-byte value), abstract. -/
structure Pob (α : Type) where
  mpt_nodes : List (List Nat)
  state_hash : Option α
deriving DecidableEq

/-- `Pob::state_hash` (pob.rs:60-75): return the cache if set; otherwise sort
`mpt_nodes` in place, hash the concatenation of all nodes in order
(`keccak_encode` feeds each item to the hasher in sequence), cache and
return.  Returns the result together with the mutated `Pob`. -/
def Pob.stateHash {α : Type} (keccak : List Nat → α) (p : Pob α) : α × Pob α :=
  match p.state_hash with
  | some h => (h, p)
  | none =>
      let sorted := sortNodes p.mpt_nodes
      let h := keccak sorted.flatten
      (h, { mpt_nodes := sorted, state_hash := some h })

/-- Modelled from the spec (for comparison with the code): `state_hash` as the
spec describes it — sort ascending lexicographic, *deduplicate*, then keccak
the concatenation. -/
def specStateHash {α : Type} (keccak : List Nat → α) (nodes : List (List Nat)) : α :=
  keccak (sortNodes nodes).dedup.flatten

theorem sortNodes_canonical {l₁ l₂ : List (List Nat)} (h : l₁.Perm l₂) :
    sortNodes l₁ = sortNodes l₂ :=
  List.eq_of_perm_of_sorted
    ((List.perm_insertionSort LexLe l₁).trans
      (h.trans (List.perm_insertionSort LexLe l₂).symm))
    (List.sorted_insertionSort LexLe l₁)
    (List.sorted_insertionSort LexLe l₂)

example : sortNodes [[2, 1], [0, 5], [0]] = [[0], [0, 5], [2, 1]] := by decide

example : (Pob.stateHash (fun l => l) ⟨[[1], [0]], none⟩).1 = [0, 1] := by decide

/-! ## Poe (`poe.rs`)

The five 32-byte roots/hashes are modelled as abstract `Nat` values; the
keccak over the concatenation of the per-block `state_hash` 32-byte arrays is
an external parameter applied to the list of those values in order. -/

/-- `Poe` (poe.rs:8-16). -/
structure Poe where
  batch_hash : Nat
  state_hash : Nat
  prev_state_root : Nat
  new_state_root : Nat
  withdrawal_root : Nat
  signature : List Nat
deriving DecidableEq

instance : Inhabited Poe := ⟨⟨0, 0, 0, 0, 0, List.replicate 65 0⟩⟩

/-- The errors `Poe::batch` (poe.rs:35-76) can produce: the empty-list error
("length of block poe is zero"), the indexed continuity error
("unexpected state_root in poe[idx]: want …, got …"), and the `.expect`
panics on the three accumulators (unreachable for non-empty input). -/
inductive BatchError where
  | emptyList
  | continuity (idx : Nat) (want got : Nat)
  | expectPanic
deriving DecidableEq

/-- The accumulator loop of `Poe::batch` (poe.rs:43-58): seed
`prev_state_root` from the first element, check each element's
`prev_state_root` against the running `new_state_root`, and track the last
`new_state_root` / `withdrawal_root`. -/
def batchLoop : List Poe → Nat → Option Nat → Option Nat → Option Nat →
    Except BatchError (Option Nat × Option Nat × Option Nat)
  | [], _, prev, new, wd => .ok (prev, new, wd)
  | poe :: rest, idx, prev, new, _wd =>
      let prev := match prev with
        | none => some poe.prev_state_root
        | some x => some x
      match new with
      | some state_root =>
          if state_root ≠ poe.prev_state_root then
            .error (.continuity idx state_root poe.prev_state_root)
          else
            batchLoop rest (idx + 1) prev (some poe.new_state_root)
              (some poe.withdrawal_root)
      | none =>
          batchLoop rest (idx + 1) prev (some poe.new_state_root)
            (some poe.withdrawal_root)

/-- `Poe::batch` (poe.rs:35-76). -/
def Poe.batch (keccak : List Nat → Nat) (batch_hash : Nat)
    (block_poes : List Poe) : Except BatchError Poe :=
  if block_poes.length < 1 then .error .emptyList
  else
    match batchLoop block_poes 0 none none none with
    | .error e => .error e
    | .ok (some prev, some new, some wd) =>
        .ok { batch_hash := batch_hash
              state_hash := keccak (block_poes.map Poe.state_hash)
              prev_state_root := prev
              new_state_root := new
              withdrawal_root := wd
              signature := List.replicate 65 0 }
    | .ok _ => .error .expectPanic

/-- Adjacent continuity: `block[i+1].prev_state_root == block[i].new_state_root`
for every adjacent pair. -/
def PoeChain (poes : List Poe) : Prop :=
  poes.Chain' (fun p q => p.new_state_root = q.prev_state_root)

instance (poes : List Poe) : Decidable (PoeChain poes) := by
  unfold PoeChain
  infer_instance

/-! ## Precompiles (`precompile.rs`)

Inputs and outputs are byte lists.  `PrecompileResult = Result<PrecompileOutput,
PrecompileFailure>`; the only exit status produced by the modelled precompiles
on success is `Returned`.  Rust panics inside a precompile are modelled by a
separate `Except` error. -/

/-- `ExitSucceed` values used by the modelled precompiles. -/
inductive ExitSucceed where
  | Returned
deriving DecidableEq

/-- `PrecompileOutput` (from the `evm` crate). -/
structure PrecompileOutput where
  exit_status : ExitSucceed
  output : List Nat
deriving DecidableEq

/-- `PrecompileFailure` shapes used by the modelled precompiles (the payload
message is identified by constructor). -/
inductive PrecompileFailure where
  | errBlake2IncorrectLength
  | errBlake2IncorrectFinalFlag
  | errModexpLengthLimit
deriving DecidableEq

/-- The secp256k1 group order `N` (precompile.rs:20-22). -/
def SECP256K1N : Nat :=
  115792089237316195423570985008687907852837564279074904382605163141518161494337

/-- Inner `ecrecover` helper (precompile.rs:379-413): copy at most 128 input
bytes into a zeroed 128-byte buffer; `msg = input[0..32]`,
`sig[0..32] = input[64..96]` (r), `sig[32..64] = input[96..128]` (s),
`sig[64] = input[63]` (v); reject (empty output) when any byte of
`input[32..63]` is nonzero, when `r = 0 ∨ s = 0`, when
`r ≥ N ∨ s ≥ N ∨ v ∉ {27, 28}`, or when recovery fails; otherwise keccak the
recovered public key and zero its first 12 bytes.  `keccak` (32-byte output)
and `secp256k1_ecdsa_recover` (64-byte public key or failure) are external
parameters; `recover` receives the 65-byte `sig` and the 32-byte `msg`. -/
def ecrecoverInner (keccak : List Nat → List Nat)
    (recover : List Nat → List Nat → Option (List Nat)) (i : List Nat) :
    List Nat :=
  let input := i.take 128 ++ List.replicate (128 - i.length) 0
  let msg := input.take 32
  let sig := (input.drop 64).take 64 ++ [input.getD 63 0]
  if ((input.drop 32).take 31).any (fun b => b ≠ 0) then []
  else
    let r := beNat ((input.drop 64).take 32)
    let s := beNat ((input.drop 96).take 32)
    let v := input.getD 63 0
    if r = 0 ∨ s = 0 then []
    else if SECP256K1N ≤ r ∨ SECP256K1N ≤ s ∨ (v ≠ 27 ∧ v ≠ 28) then []
    else
      match recover sig msg with
      | none => []
      | some pubkey => List.replicate 12 0 ++ (keccak pubkey).drop 12

/-- `PrecompileEcrecover::required_gas` (precompile.rs:375-377). -/
def ecrecoverRequiredGas (_input : List Nat) : Nat := 3000

/-- `PrecompileEcrecover::run` (precompile.rs:378-419): always `Ok` with
`Returned` status. -/
def ecrecoverRun (keccak : List Nat → List Nat)
    (recover : List Nat → List Nat → Option (List Nat)) (input : List Nat) :
    Except PrecompileFailure PrecompileOutput :=
  .ok { exit_status := .Returned, output := ecrecoverInner keccak recover input }

/-! ### modexp, precompile 5 (`PrecompileBigModExp`) -/

/-- `BigUint::to_bytes_be`: minimal big-endian bytes, `[0]` for zero. -/
def natToBE (n : Nat) : List Nat :=
  if n = 0 then [0] else (Nat.digits 256 n).reverse

/-- Panics and failures of `PrecompileBigModExp`:
`usizeOverflow` — `U256::as_usize` on a value above `usize::MAX`;
`slicePanic` — out-of-range slice while reading `exp_head`;
`assertFail` — the `assert!(result.len() <= modulus_length)`
(precompile.rs:764);
`lengthLimit` — the "input length exceed limitation" error;
`unimplemented` — the `unimplemented!()` on the non-EIP-2565 gas path. -/
inductive ModexpErr where
  | usizeOverflow
  | slicePanic
  | assertFail
  | lengthLimit
  | unimplemented
deriving DecidableEq

/-- Padding loop shared by `required_gas` and `run` (precompile.rs:622-626,
690-693): push zeros until the data is at least 96 bytes long. -/
def modexpPad (input : List Nat) : List Nat :=
  input ++ List.replicate (96 - input.length) 0

/-- `U256::bits()`. -/
def u256bits (n : Nat) : Nat := if n = 0 then 0 else Nat.log2 n + 1

/-- `PrecompileBigModExp::required_gas` (precompile.rs:621-686) with
`eip2565` as configured.  usize arithmetic on `adj_exp_len` wraps mod `2^64`;
the `U256` gas arithmetic cannot overflow 256 bits (`gas ≤ 2^61` before the
squaring, so `gas² · adj_exp_len < 2^186`). -/
def modexpRequiredGas (eip2565 : Bool) (input : List Nat) :
    Except ModexpErr Nat :=
  let data := modexpPad input
  let base_len := beNat (data.take 32)
  let exp_len := beNat ((data.drop 32).take 32)
  let mod_len := beNat ((data.drop 64).take 32)
  if U64MOD ≤ base_len ∨ U64MOD ≤ exp_len ∨ U64MOD ≤ mod_len then
    .error .usizeOverflow
  else
    let input96 := input.drop 96
    let headRes : Except ModexpErr Nat :=
      if input96.length ≤ base_len then .ok 0
      else if 32 < exp_len then
        if input96.length < base_len + 32 then .error .slicePanic
        else .ok (beNat ((input96.drop base_len).take 32))
      else
        if input96.length < base_len + exp_len then .error .slicePanic
        else .ok (beNat ((input96.drop base_len).take exp_len))
    match headRes with
    | .error e => .error e
    | .ok exp_head =>
        let msb := match exp_head with
          | 0 => 0
          | _ => u256bits exp_head - 1
        let adj_exp_len :=
          ((if 32 < exp_len then ((exp_len - 32) * 8) % U64MOD else 0) + msb)
            % U64MOD
        let gas0 := max mod_len base_len
        let gas1 := (gas0 + 7) / 8
        let gas2 := gas1 * gas1
        let gas3 := gas2 * max adj_exp_len 1
        let gas4 := gas3 / 3
        if eip2565 = false then .error .unimplemented
        else if 64 < u256bits gas4 then .ok (U64MOD - 1)
        else if gas4 < 200 then .ok 200
        else .ok gas4

/-- `PrecompileBigModExp::run` (precompile.rs:688-773).  The three byte
vectors are built exactly as the source loops do (missing tail bytes read as
zero); `BigUint` arithmetic is exact `Nat` arithmetic. -/
def modexpRun (length_limit : Option Nat) (input : List Nat) :
    Except ModexpErr (List Nat) :=
  let data := modexpPad input
  let base_length := beNat (data.take 32)
  let exponent_length := beNat ((data.drop 32).take 32)
  let modulus_length := beNat ((data.drop 64).take 32)
  if U64MOD ≤ base_length ∨ U64MOD ≤ exponent_length ∨ U64MOD ≤ modulus_length
  then .error .usizeOverflow
  else if (match length_limit with
           | some limit =>
               decide (limit < base_length) || decide (limit < exponent_length)
                 || decide (limit < modulus_length)
           | none => false) then .error .lengthLimit
  else if base_length = 0 ∧ modulus_length = 0 then .ok []
  else
    let base_arr := (List.range base_length).map (fun i => data.getD (96 + i) 0)
    let exponent_arr :=
      (List.range exponent_length).map
        (fun i => data.getD (96 + base_length + i) 0)
    let modulus_arr :=
      (List.range modulus_length).map
        (fun i => data.getD (96 + base_length + exponent_length + i) 0)
    let base := beNat base_arr
    let exponent := beNat exponent_arr
    let modulus := beNat modulus_arr
    let result :=
      if modulus = 0 ∨ modulus = 1 then natToBE 0
      else natToBE (base ^ exponent % modulus)
    if modulus_length < result.length then .error .assertFail
    else .ok (List.replicate (modulus_length - result.length) 0 ++ result)

/-- The modexp input that fires the source's own assertion: declared
`base_len = 1`, `exp_len = 0`, `mod_len = 0`, followed by the single base
byte `0x02`. -/
def modexpAssertInput : List Nat :=
  List.replicate 31 0 ++ [1] ++ List.replicate 64 0 ++ [2]

example : modexpRun none modexpAssertInput = .error .assertFail := by decide

/-! ### bn256 add, precompile 6 (`PrecompileAddIstanbul`) -/

/-- The bn254 base-field modulus (the `bn` crate's `Fq`). -/
def BN254P : Nat :=
  21888242871839275222246405745257275088696311157297823662689037894645226208583

/-- A `bn::G1` value as produced by `read_point`: the group identity or an
affine point. -/
inductive BnG1 where
  | zero
  | affine (x y : Nat)
deriving DecidableEq

/-- The `unwrap` panics inside `read_point` (precompile.rs:179-195):
`Fq::from_slice` fails when the 32-byte value is not below the field modulus
(`Bn128FieldPointNotAMember`); `AffineG1::new` fails when `(x, y)` is not on
the curve `y² = x³ + 3` (`Bn128AffineGFailedToCreate`). -/
inductive BnPanic where
  | fqNotMember
  | notOnCurve
deriving DecidableEq

/-- `Fq::from_slice` on a 32-byte big-endian slice. -/
def fqFromSlice (bytes : List Nat) : Option Nat :=
  let v := beNat bytes
  if v < BN254P then some v else none

/-- `read_point` (precompile.rs:179-195), with each `.unwrap()` modelled as a
panic value. -/
def read_point (input : List Nat) (pos : Nat) : Except BnPanic BnG1 :=
  match fqFromSlice ((input.drop pos).take 32) with
  | none => .error .fqNotMember
  | some px =>
      match fqFromSlice ((input.drop (pos + 32)).take 32) with
      | none => .error .fqNotMember
      | some py =>
          if px = 0 ∧ py = 0 then .ok .zero
          else if py * py % BN254P = (px * px * px + 3) % BN254P then
            .ok (.affine px py)
          else .error .notOnCurve

/-- 32-byte big-endian encoding (`to_big_endian` into a 32-byte buffer). -/
def natToBE32 (n : Nat) : List Nat :=
  (List.range 32).map (fun i => n / 256 ^ (31 - i) % 256)

/-- `PrecompileAddIstanbul::required_gas` (precompile.rs:201-203). -/
def bn256AddRequiredGas (_input : List Nat) : Nat := 150

/-- `PrecompileAddIstanbul::run` (precompile.rs:204-229): resize the input to
128 bytes, read both points, add them, and write the affine sum (or leave the
64 output bytes zero when the sum is the point at infinity).  The actual
group addition (`p1 + p2` followed by `AffineG1::from_jacobian`) is the
external parameter `addAffine` (`none` = point at infinity). -/
def bn256AddRun (addAffine : BnG1 → BnG1 → Option (Nat × Nat))
    (i : List Nat) : Except BnPanic (List Nat) :=
  let input := i.take 128 ++ List.replicate (128 - i.length) 0
  match read_point input 0 with
  | .error e => .error e
  | .ok p1 =>
      match read_point input 64 with
      | .error e => .error e
      | .ok p2 =>
          match addAffine p1 p2 with
          | none => .ok (List.replicate 64 0)
          | some (x, y) => .ok (natToBE32 x ++ natToBE32 y)

/-- A 64-byte bn256-add input whose first point is `(1, 1)`, which is not on
`y² = x³ + 3`; the second point pads to `(0, 0)` (the identity). -/
def bn256AddBadInput : List Nat :=
  List.replicate 31 0 ++ [1] ++ List.replicate 31 0 ++ [1]

/-! ### blake2f, precompile 9 (`PrecompileBlake2F`) -/

/-- `PrecompileBlake2F::required_gas` (precompile.rs:481-488): zero unless the
input is exactly 213 bytes, else the big-endian u32 at bytes 0..4. -/
def blake2fRequiredGas (input : List Nat) : Nat :=
  if input.length ≠ 213 then 0 else beNat (input.take 4)

/-- The SIGMA message schedule (precompile.rs:539-550). -/
def SIGMA : List (List Nat) :=
  [[0, 1, 2, 3, 4, 5, 6, 7, 8, 9, 10, 11, 12, 13, 14, 15],
   [14, 10, 4, 8, 9, 15, 13, 6, 1, 12, 0, 2, 11, 7, 5, 3],
   [11, 8, 12, 0, 5, 2, 15, 13, 10, 14, 3, 6, 7, 1, 9, 4],
   [7, 9, 3, 1, 13, 12, 11, 14, 2, 6, 5, 10, 4, 0, 15, 8],
   [9, 0, 5, 7, 2, 4, 10, 15, 14, 1, 11, 12, 6, 8, 3, 13],
   [2, 12, 6, 10, 0, 11, 8, 3, 4, 13, 7, 5, 15, 14, 1, 9],
   [12, 5, 1, 15, 14, 13, 4, 10, 0, 7, 6, 3, 9, 2, 8, 11],
   [13, 11, 7, 14, 12, 1, 3, 9, 5, 0, 15, 4, 8, 6, 2, 10],
   [6, 15, 14, 9, 11, 3, 0, 8, 12, 2, 13, 7, 1, 4, 10, 5],
   [10, 2, 8, 4, 7, 6, 1, 5, 15, 11, 9, 14, 3, 12, 13, 0]]

/-- The BLAKE2b initialization vector (precompile.rs:554-563). -/
def blakeIV : List Nat :=
  [0x6a09e667f3bcc908, 0xbb67ae8584caa73b, 0x3c6ef372fe94f82b,
   0xa54ff53a5f1d36f1, 0x510e527fade682d1, 0x9b05688c2b3e6c1f,
   0x1f83d9abfb41bd6b, 0x5be0cd19137e2179]

/-- `u64::rotate_right` for values below `2^64`. -/
def ror64 (x n : Nat) : Nat := x / 2 ^ n + x % 2 ^ n * 2 ^ (64 - n)

/-- Wrapping u64 addition. -/
def wadd64 (a b : Nat) : Nat := (a + b) % U64MOD

/-- Bitwise u64 complement for values below `2^64`. -/
def not64 (x : Nat) : Nat := U64MOD - 1 - x

/-- The G mixing function (precompile.rs:567-576) on the 16-word vector. -/
def blakeG (v : List Nat) (a b c d x y : Nat) : List Nat :=
  let v := v.set a (wadd64 (wadd64 (v.getD a 0) (v.getD b 0)) x)
  let v := v.set d (ror64 ((v.getD d 0).xor (v.getD a 0)) 32)
  let v := v.set c (wadd64 (v.getD c 0) (v.getD d 0))
  let v := v.set b (ror64 ((v.getD b 0).xor (v.getD c 0)) 24)
  let v := v.set a (wadd64 (wadd64 (v.getD a 0) (v.getD b 0)) y)
  let v := v.set d (ror64 ((v.getD d 0).xor (v.getD a 0)) 16)
  let v := v.set c (wadd64 (v.getD c 0) (v.getD d 0))
  let v := v.set b (ror64 ((v.getD b 0).xor (v.getD c 0)) 63)
  v

/-- One round of the compression loop (precompile.rs:593-605). -/
def blakeRound (m : List Nat) (v : List Nat) (i : Nat) : List Nat :=
  let s := SIGMA.getD (i % 10) []
  let v := blakeG v 0 4 8 12 (m.getD (s.getD 0 0) 0) (m.getD (s.getD 1 0) 0)
  let v := blakeG v 1 5 9 13 (m.getD (s.getD 2 0) 0) (m.getD (s.getD 3 0) 0)
  let v := blakeG v 2 6 10 14 (m.getD (s.getD 4 0) 0) (m.getD (s.getD 5 0) 0)
  let v := blakeG v 3 7 11 15 (m.getD (s.getD 6 0) 0) (m.getD (s.getD 7 0) 0)
  let v := blakeG v 0 5 10 15 (m.getD (s.getD 8 0) 0) (m.getD (s.getD 9 0) 0)
  let v := blakeG v 1 6 11 12 (m.getD (s.getD 10 0) 0) (m.getD (s.getD 11 0) 0)
  let v := blakeG v 2 7 8 13 (m.getD (s.getD 12 0) 0) (m.getD (s.getD 13 0) 0)
  let v := blakeG v 3 4 9 14 (m.getD (s.getD 14 0) 0) (m.getD (s.getD 15 0) 0)
  v

/-- `eip_152::compress` (precompile.rs:582-610). -/
def blakeCompress (h m : List Nat) (t0 t1 : Nat) (f : Bool) (rounds : Nat) :
    List Nat :=
  let v := h ++ blakeIV
  let v := v.set 12 ((v.getD 12 0).xor t0)
  let v := v.set 13 ((v.getD 13 0).xor t1)
  let v := if f then v.set 14 (not64 (v.getD 14 0)) else v
  let v := (List.range rounds).foldl (blakeRound m) v
  (List.range 8).map (fun i => (h.getD i 0).xor ((v.getD i 0).xor (v.getD (i + 8) 0)))

/-- 8-byte little-endian encoding (`u64::to_le_bytes`). -/
def leBytes8 (x : Nat) : List Nat := (List.range 8).map (fun i => x / 256 ^ i % 256)

/-- `PrecompileBlake2F::run` (precompile.rs:490-535). -/
def blake2fRun (input : List Nat) : Except PrecompileFailure PrecompileOutput :=
  if input.length ≠ 213 then .error .errBlake2IncorrectLength
  else if input.getD 212 0 ≠ 1 ∧ input.getD 212 0 ≠ 0 then
    .error .errBlake2IncorrectFinalFlag
  else
    let f := input.getD 212 0 = 1
    let rounds := beNat (input.take 4)
    let h := (List.range 8).map (fun i => leNat ((input.drop (4 + 8 * i)).take 8))
    let m := (List.range 16).map (fun i => leNat ((input.drop (68 + 8 * i)).take 8))
    let t0 := leNat ((input.drop 196).take 8)
    let t1 := leNat ((input.drop 204).take 8)
    let h2 := blakeCompress h m t0 t1 f rounds
    .ok { exit_status := .Returned
          output := (h2.map leBytes8).flatten }

/-! ## `Ethereum::calc_base_fee` (engines.rs:162-190)

All arithmetic is in the Rust `U256` type, which panics on overflow,
division by zero and subtraction underflow; those panics are explicit
errors here.  Division is truncating. -/

/-- `U256` arithmetic panics. -/
inductive U256Panic where
  | mulOverflow
  | divByZero
  | addOverflow
  | subUnderflow
deriving DecidableEq

/-- `Ethereum::calc_base_fee` (engines.rs:162-190), with
`ELASTICITY_MULTIPLIER = 2` and `BASE_FEE_CHANGE_DENOMINATOR = 8`. -/
def calc_base_fee (gas_limit gas_used base_fee : Nat) :
    Except U256Panic Nat :=
  let parent_gas_target := gas_limit / 2
  if gas_used = parent_gas_target then .ok base_fee
  else if parent_gas_target < gas_used then
    let num0 := gas_used - parent_gas_target
    if U256MOD ≤ num0 * base_fee then .error .mulOverflow
    else if parent_gas_target = 0 then .error .divByZero
    else
      let num := num0 * base_fee / parent_gas_target / 8
      let base_fee_delta := max num 1
      if U256MOD ≤ base_fee_delta + base_fee then .error .addOverflow
      else .ok (base_fee_delta + base_fee)
  else
    let num0 := parent_gas_target - gas_used
    if U256MOD ≤ num0 * base_fee then .error .mulOverflow
    else if parent_gas_target = 0 then .error .divByZero
    else
      let num := num0 * base_fee / parent_gas_target / 8
      if base_fee < num then .error .subUnderflow
      else .ok (max (base_fee - num) 0)

example : calc_base_fee 20 10 1000 = .ok 1000 := by decide

example : calc_base_fee 20 15 8 = .ok 9 := by decide

example : calc_base_fee 20 0 80 = .ok 70 := by decide

/-! ## Theorems -/

theorem U64MOD_pos : 0 < U64MOD := by decide

/-- Wrapping subtraction of `g` undoes (mod `2^64`) a previous addition of
`g`. -/
theorem refund_gas_congr (cum x g : Nat)
    (h : cum % U64MOD = (x + g) % U64MOD) :
    BlockBuilder.refund_gas cum g % U64MOD = x % U64MOD := by
  unfold BlockBuilder.refund_gas
  have key : g + (U64MOD - g % U64MOD) = U64MOD * (g / U64MOD + 1) := by
    have hdm := Nat.div_add_mod g U64MOD
    have hr : g % U64MOD < U64MOD := Nat.mod_lt _ U64MOD_pos
    unfold U64MOD at hdm hr ⊢
    omega
  calc (cum + (U64MOD - g % U64MOD)) % U64MOD % U64MOD
      = (cum + (U64MOD - g % U64MOD)) % U64MOD := Nat.mod_mod_of_dvd _ dvd_rfl
    _ = (cum % U64MOD + (U64MOD - g % U64MOD) % U64MOD) % U64MOD :=
        Nat.add_mod _ _ _
    _ = ((x + g) % U64MOD + (U64MOD - g % U64MOD) % U64MOD) % U64MOD := by
        rw [h]
    _ = (x + g + (U64MOD - g % U64MOD)) % U64MOD := (Nat.add_mod _ _ _).symm
    _ = (x + U64MOD * (g / U64MOD + 1)) % U64MOD := by
        rw [Nat.add_assoc, key]
    _ = x % U64MOD := Nat.add_mul_mod_self_left _ _ _

theorem foldl_refund_lt (gs : List Nat) (cum : Nat) (h : cum < U64MOD) :
    gs.foldl BlockBuilder.refund_gas cum < U64MOD := by
  induction gs generalizing cum with
  | nil => exact h
  | cons g rest ih =>
      exact ih _ (Nat.mod_lt _ U64MOD_pos)

theorem foldl_refund_congr (gs : List Nat) :
    ∀ cum x, cum % U64MOD = (x + gs.sum) % U64MOD →
      (gs.foldl BlockBuilder.refund_gas cum) % U64MOD = x % U64MOD := by
  induction gs with
  | nil => intro cum x h; simpa using h
  | cons g rest ih =>
      intro cum x h
      have h1 : cum % U64MOD = (x + rest.sum + g) % U64MOD := by
        rw [h, List.sum_cons]; ring_nf
      have h2 := refund_gas_congr cum (x + rest.sum) g h1
      have h3 : BlockBuilder.refund_gas cum g % U64MOD =
          (x + rest.sum) % U64MOD := h2
      simpa using ih (BlockBuilder.refund_gas cum g) x (by simpa using h3)

/-- The gas-accounting invariant: `cumulative_gas_used` agrees with the
receipts' `gas_used` sum modulo `2^64` and is a valid u64 value. -/
def BuilderInv (b : BlockBuilder) : Prop :=
  b.cumulative_gas_used % U64MOD = b.receiptsGasSum % U64MOD ∧
    b.cumulative_gas_used < U64MOD

theorem builderInv_new (gl hgu : Nat) : BuilderInv (BlockBuilder.new gl hgu) := by
  constructor
  · rfl
  · show (0 : Nat) < U64MOD
    decide

theorem builderInv_applyOp (b : BlockBuilder) (op : BuilderOp)
    (h : BuilderInv b) : BuilderInv (b.applyOp op) := by
  cases op with
  | commit ngf tgl exec =>
      cases hE : b.execute_tx ngf tgl exec with
      | error e =>
          have happ : b.applyOp (.commit ngf tgl exec) = b := by
            simp [BlockBuilder.applyOp, BlockBuilder.commit, hE]
          rwa [happ]
      | ok g =>
          have happ : b.applyOp (.commit ngf tgl exec) =
              { b with
                  cumulative_gas_used :=
                    BlockBuilder.cost_gas b.cumulative_gas_used g
                  receipts :=
                    b.receipts ++ [ethereumBuildReceipt b.header_gas_used g]
                  txs := b.txs ++ [tgl] } := by
            simp [BlockBuilder.applyOp, BlockBuilder.commit, hE]
          rw [happ]
          refine ⟨?_, Nat.mod_lt _ U64MOD_pos⟩
          have hsum : BlockBuilder.receiptsGasSum
              { b with
                  cumulative_gas_used :=
                    BlockBuilder.cost_gas b.cumulative_gas_used g
                  receipts :=
                    b.receipts ++ [ethereumBuildReceipt b.header_gas_used g]
                  txs := b.txs ++ [tgl] } =
              b.receiptsGasSum + g := by
            simp [BlockBuilder.receiptsGasSum, ethereumBuildReceipt]
          show BlockBuilder.cost_gas b.cumulative_gas_used g % U64MOD = _
          rw [hsum]
          unfold BlockBuilder.cost_gas
          rw [Nat.mod_mod_of_dvd _ dvd_rfl, Nat.add_mod, h.1, ← Nat.add_mod]
  | truncate n =>
      have happ : b.applyOp (.truncate n) =
          { b with
              cumulative_gas_used :=
                ((b.receipts.drop n).map Receipt.gas_used).foldl
                  BlockBuilder.refund_gas b.cumulative_gas_used
              txs := b.txs.take n
              receipts := b.receipts.take n } := by
        simp [BlockBuilder.applyOp, BlockBuilder.truncate_and_revert]
      rw [happ]
      constructor
      · apply foldl_refund_congr
        have hsplit : b.receiptsGasSum =
            ((b.receipts.take n).map Receipt.gas_used).sum +
              ((b.receipts.drop n).map Receipt.gas_used).sum := by
          unfold BlockBuilder.receiptsGasSum
          rw [← List.sum_append, ← List.map_append, List.take_append_drop]
        show b.cumulative_gas_used % U64MOD = _
        rw [h.1, hsplit]
        rfl
      · exact foldl_refund_lt _ _ h.2

theorem builderInv_applyOps (b : BlockBuilder) (ops : List BuilderOp)
    (h : BuilderInv b) : BuilderInv (b.applyOps ops) := by
  induction ops generalizing b with
  | nil => exact h
  | cons op rest ih => exact ih _ (builderInv_applyOp b op h)

/-- **C1.** For every sequence of `BlockBuilder` operations made of commit
calls and `truncate_and_revert` calls (starting from `BlockBuilder::new`),
`cumulative_gas_used` equals the sum of `gas_used` over the receipts the
builder currently holds, and after `finalize_header` (hence `finalize`)
`header.gas_used` equals that same sum.  The hypothesis states that the sum
is a representable u64 value, which also caps every intermediate
`cumulative_gas_used` the wrapping arithmetic produces. -/
theorem builder_cumulative_gas_eq_receipts_sum (gl hgu : Nat)
    (ops : List BuilderOp)
    (h : (BlockBuilder.applyOps (BlockBuilder.new gl hgu) ops).receiptsGasSum
      < U64MOD) :
    (BlockBuilder.applyOps (BlockBuilder.new gl hgu) ops).cumulative_gas_used
        = (BlockBuilder.applyOps (BlockBuilder.new gl hgu) ops).receiptsGasSum
      ∧ (BlockBuilder.finalize_header
          (BlockBuilder.applyOps (BlockBuilder.new gl hgu) ops)).header_gas_used
        = (BlockBuilder.applyOps (BlockBuilder.new gl hgu) ops).receiptsGasSum
    := by
  have hInv := builderInv_applyOps _ ops (builderInv_new gl hgu)
  have heq : (BlockBuilder.applyOps (BlockBuilder.new gl hgu) ops).cumulative_gas_used
      = (BlockBuilder.applyOps (BlockBuilder.new gl hgu) ops).receiptsGasSum := by
    have h1 := hInv.1
    rwa [Nat.mod_eq_of_lt hInv.2, Nat.mod_eq_of_lt h] at h1
  exact ⟨heq, heq⟩

/-- Witness for C1: the concrete builder round-trip of the spec (gas limit
30,000,000; commits using 21,000 and 50,000 gas; then truncate to prefix 1). -/
theorem builder_cumulative_gas_eq_receipts_sum_witness :
    (BlockBuilder.applyOps (BlockBuilder.new 30000000 0)
        [.commit false 21000 (some 21000), .commit false 50000 (some 50000),
         .truncate 1]).receiptsGasSum < U64MOD
      ∧ (BlockBuilder.applyOps (BlockBuilder.new 30000000 0)
          [.commit false 21000 (some 21000), .commit false 50000 (some 50000),
           .truncate 1]).cumulative_gas_used
        = (BlockBuilder.applyOps (BlockBuilder.new 30000000 0)
            [.commit false 21000 (some 21000), .commit false 50000 (some 50000),
             .truncate 1]).receiptsGasSum :=
  ⟨by decide,
   (builder_cumulative_gas_eq_receipts_sum 30000000 0
      [.commit false 21000 (some 21000), .commit false 50000 (some 50000),
       .truncate 1] (by decide)).1⟩

/-- **C2 (counter-evaluation).** The receipt built by the second successful
commit of a block does *not* carry the builder-relative prefix sum: with a
fresh header (`gas_used = 0`, as `new_block_header` produces) and a first
commit using 21,000 gas, a second commit using 50,000 gas yields a receipt
whose `cumulative_gas_used` is `header.gas_used + 50000 = 50000`
(`Ethereum::build_receipt`, engines.rs:98), not the claimed
`prev_cumulative + used_gas = 71000`. -/
theorem ethereum_receipt_cumulative_gas_header_relative :
    (match (BlockBuilder.applyOp (BlockBuilder.new 30000000 0)
        (.commit false 21000 (some 21000))).commit false 50000 (some 50000) with
     | .ok (_, r) => r.cumulative_gas_used
     | .error _ => 0) = 50000
    ∧ (BlockBuilder.applyOp (BlockBuilder.new 30000000 0)
        (.commit false 21000 (some 21000))).cumulative_gas_used + 50000 = 71000
    ∧ (50000 : Nat) ≠ 71000 := by
  refine ⟨?_, ?_, ?_⟩ <;> decide

/-- **C3.** When `no_gas_fee` is not set and the transaction's gas limit
exceeds `header.gas_limit.saturating_sub(cumulative_gas_used)`, `commit`
returns `Err(CommitError::NotEnoughGasLimit { gas_pool, gas_limit })` with
`gas_pool` the saturating difference and `gas_limit` the transaction's, and
the builder is unchanged (no tx/receipt appended, `cumulative_gas_used`
kept). -/
theorem commit_gas_pool_exceeded_not_enough_gas_limit (b : BlockBuilder)
    (tx_gas_limit : Nat) (exec : Option Nat)
    (h : b.header_gas_limit - b.cumulative_gas_used < tx_gas_limit) :
    b.commit false tx_gas_limit exec =
        .error (.NotEnoughGasLimit
          (b.header_gas_limit - b.cumulative_gas_used) tx_gas_limit)
      ∧ b.applyOp (.commit false tx_gas_limit exec) = b := by
  have hexec : b.execute_tx false tx_gas_limit exec =
      .error (.NotEnoughGasLimit
        (b.header_gas_limit - b.cumulative_gas_used) tx_gas_limit) := by
    simp [BlockBuilder.execute_tx, h]
  constructor
  · simp [BlockBuilder.commit, hexec]
  · simp [BlockBuilder.applyOp, BlockBuilder.commit, hexec]

/-- Witness for C3: a builder with `gas_limit = 30,000,000` and
`cumulative_gas_used = 29,995,000` rejects a transaction with gas limit
21,000 (`gas_pool = 5000`). -/
theorem commit_gas_pool_exceeded_not_enough_gas_limit_witness :
    ((BlockBuilder.new 30000000 0).applyOp
          (.commit false 29995000 (some 29995000))).header_gas_limit -
        ((BlockBuilder.new 30000000 0).applyOp
          (.commit false 29995000 (some 29995000))).cumulative_gas_used
      < 21000
    ∧ ((BlockBuilder.new 30000000 0).applyOp
        (.commit false 29995000 (some 29995000))).commit false 21000
          (some 21000) =
      .error (.NotEnoughGasLimit 5000 21000) := by
  refine ⟨by decide, ?_⟩
  have h := commit_gas_pool_exceeded_not_enough_gas_limit
    ((BlockBuilder.new 30000000 0).applyOp (.commit false 29995000 (some 29995000)))
    21000 (some 21000) (by decide)
  exact h.1

/-- **C4 (counterexample).** `Pob::state_hash` does *not* deduplicate: on a
node list holding the byte string `[0]` twice, the code hashes the 2-byte
concatenation `[0, 0]` while the claimed sort-and-dedup canonicalisation
hashes `[0]`, so the two disagree (taking for the hash parameter the
identity on byte strings; any hash without a collision on these two distinct
preimages, keccak included, also disagrees), and duplicating a node changes
the result. -/
theorem pob_state_hash_dedup_refuted :
    (Pob.stateHash (fun l => l) ⟨[[0], [0]], none⟩).1 ≠
        specStateHash (fun l => l) [[0], [0]]
      ∧ (Pob.stateHash (fun l => l) ⟨[[0], [0]], none⟩).1 ≠
        (Pob.stateHash (fun l => l) ⟨[[0]], none⟩).1 := by
  refine ⟨?_, ?_⟩ <;> decide

/-- **C4 (amended).** `state_hash()` equals keccak over the concatenation of
`mpt_nodes` after ascending byte-lexicographic sort (without deduplication);
the result is invariant under any permutation of `mpt_nodes` (not under
duplication, see the counterexample); and every subsequent call returns the
cached first result. -/
theorem pob_state_hash_sorted_no_dedup {α : Type} (keccak : List Nat → α)
    (p : Pob α) (nodes2 : List (List Nat))
    (hcache : p.state_hash = none) (hperm : p.mpt_nodes.Perm nodes2) :
    (Pob.stateHash keccak p).1 = keccak (sortNodes p.mpt_nodes).flatten
      ∧ (Pob.stateHash keccak p).1 =
        (Pob.stateHash keccak ⟨nodes2, none⟩).1
      ∧ Pob.stateHash keccak (Pob.stateHash keccak p).2 =
        Pob.stateHash keccak p := by
  have h1 : Pob.stateHash keccak p =
      (keccak (sortNodes p.mpt_nodes).flatten,
        ⟨sortNodes p.mpt_nodes,
          some (keccak (sortNodes p.mpt_nodes).flatten)⟩) := by
    simp only [Pob.stateHash, hcache]
  have h2 : Pob.stateHash keccak (⟨nodes2, none⟩ : Pob α) =
      (keccak (sortNodes nodes2).flatten,
        ⟨sortNodes nodes2, some (keccak (sortNodes nodes2).flatten)⟩) := by
    simp only [Pob.stateHash]
  refine ⟨by rw [h1], ?_, ?_⟩
  · rw [h1, h2, sortNodes_canonical hperm]
  · rw [h1]
    simp only [Pob.stateHash]

/-- Witness for C4: a two-node witness list in reversed order, permuted. -/
theorem pob_state_hash_sorted_no_dedup_witness :
    ((⟨[[1], [0]], none⟩ : Pob (List Nat)).state_hash = none)
      ∧ ([[1], [0]] : List (List Nat)).Perm [[0], [1]]
      ∧ (Pob.stateHash (fun l => l) ⟨[[1], [0]], none⟩).1 =
        ([[0], [1]] : List (List Nat)).flatten
      ∧ (Pob.stateHash (fun l => l) ⟨[[1], [0]], none⟩).1 =
        (Pob.stateHash (fun l => l) ⟨[[0], [1]], none⟩).1 :=
  ⟨rfl, by decide,
   by
     have h := pob_state_hash_sorted_no_dedup (fun l => l)
       ⟨[[1], [0]], none⟩ [[0], [1]] rfl (by decide)
     have h1 := h.1
     rwa [show (sortNodes [[1], [0]]).flatten = ([[0], [1]] : List (List Nat)).flatten
       from by decide] at h1,
   (pob_state_hash_sorted_no_dedup (fun l => l)
     ⟨[[1], [0]], none⟩ [[0], [1]] rfl (by decide)).2.1⟩

/-- The continuity condition the loop still has to check, given the running
`new_state_root` accumulator. -/
def contOkB : Option Nat → List Poe → Bool
  | _, [] => true
  | none, p :: rest => contOkB (some p.new_state_root) rest
  | some sr, p :: rest =>
      decide (sr = p.prev_state_root) && contOkB (some p.new_state_root) rest

/-- `prev_state_root` accumulator after the loop. -/
def loopPrev (prev : Option Nat) (poes : List Poe) : Option Nat :=
  match prev with
  | some x => some x
  | none => poes.head?.map Poe.prev_state_root

/-- `new_state_root` accumulator after the loop. -/
def loopNew (new : Option Nat) (poes : List Poe) : Option Nat :=
  match poes.getLast? with
  | some lst => some lst.new_state_root
  | none => new

/-- `withdrawal_root` accumulator after the loop. -/
def loopWd (wd : Option Nat) (poes : List Poe) : Option Nat :=
  match poes.getLast? with
  | some lst => some lst.withdrawal_root
  | none => wd

/-- The update the loop applies to the `prev_state_root` accumulator
(poe.rs:44-46). -/
def seedPrev (prev : Option Nat) (p : Poe) : Option Nat :=
  match prev with
  | none => some p.prev_state_root
  | some x => some x

theorem loopPrev_seed (prev : Option Nat) (p : Poe) (rest : List Poe) :
    loopPrev (seedPrev prev p) rest = loopPrev prev (p :: rest) := by
  cases prev <;> simp [seedPrev, loopPrev]

theorem loopNew_cons (p : Poe) (rest : List Poe) (new : Option Nat) :
    loopNew (some p.new_state_root) rest = loopNew new (p :: rest) := by
  cases rest with
  | nil => simp [loopNew]
  | cons q t =>
      unfold loopNew
      rw [List.getLast?_cons_cons]
      cases hgl : (q :: t).getLast? with
      | none => exact absurd (List.getLast?_eq_none_iff.mp hgl) (by simp)
      | some lst => rfl

theorem loopWd_cons (p : Poe) (rest : List Poe) (wd : Option Nat) :
    loopWd (some p.withdrawal_root) rest = loopWd wd (p :: rest) := by
  cases rest with
  | nil => simp [loopWd]
  | cons q t =>
      unfold loopWd
      rw [List.getLast?_cons_cons]
      cases hgl : (q :: t).getLast? with
      | none => exact absurd (List.getLast?_eq_none_iff.mp hgl) (by simp)
      | some lst => rfl

theorem batchLoop_ok (poes : List Poe) :
    ∀ (idx : Nat) (prev new wd : Option Nat), contOkB new poes = true →
      batchLoop poes idx prev new wd =
        .ok (loopPrev prev poes, loopNew new poes, loopWd wd poes) := by
  induction poes with
  | nil =>
      intro idx prev new wd _
      cases prev <;> simp [batchLoop, loopPrev, loopNew, loopWd]
  | cons p rest ih =>
      intro idx prev new wd h
      have hrest : contOkB (some p.new_state_root) rest = true := by
        cases new with
        | none => exact h
        | some sr =>
            have h2 := h
            unfold contOkB at h2
            exact Bool.and_elim_right h2
      have hstep :
          batchLoop (p :: rest) idx prev new wd =
            batchLoop rest (idx + 1) (seedPrev prev p)
              (some p.new_state_root) (some p.withdrawal_root) := by
        cases new with
        | none => rfl
        | some sr =>
            have hsr : sr = p.prev_state_root := by
              have h2 := h
              unfold contOkB at h2
              exact of_decide_eq_true (Bool.and_elim_left h2)
            subst hsr
            simp [batchLoop, seedPrev]
      rw [hstep, ih (idx + 1) _ _ _ hrest, loopPrev_seed prev p rest,
        loopNew_cons p rest new, loopWd_cons p rest wd]

theorem batchLoop_error (poes : List Poe) :
    ∀ (idx : Nat) (prev new wd : Option Nat), contOkB new poes = false →
      ∃ i w g, batchLoop poes idx prev new wd = .error (.continuity i w g) := by
  induction poes with
  | nil =>
      intro idx prev new wd h
      simp [contOkB] at h
  | cons p rest ih =>
      intro idx prev new wd h
      cases new with
      | none =>
          have hrest : contOkB (some p.new_state_root) rest = false := h
          obtain ⟨i, w, g, hig⟩ := ih (idx + 1) (seedPrev prev p)
            (some p.new_state_root) (some p.withdrawal_root) hrest
          exact ⟨i, w, g, by
            rw [show batchLoop (p :: rest) idx prev none wd =
              batchLoop rest (idx + 1) (seedPrev prev p)
                (some p.new_state_root) (some p.withdrawal_root) from rfl]
            exact hig⟩
      | some sr =>
          by_cases hsr : sr = p.prev_state_root
          · have hrest : contOkB (some p.new_state_root) rest = false := by
              unfold contOkB at h
              simpa [hsr] using h
            obtain ⟨i, w, g, hig⟩ := ih (idx + 1) (seedPrev prev p)
              (some p.new_state_root) (some p.withdrawal_root) hrest
            have hstep : batchLoop (p :: rest) idx prev (some sr) wd =
                batchLoop rest (idx + 1) (seedPrev prev p)
                  (some p.new_state_root) (some p.withdrawal_root) := by
              subst hsr
              simp [batchLoop, seedPrev]
            exact ⟨i, w, g, by rw [hstep]; exact hig⟩
          · exact ⟨idx, sr, p.prev_state_root, by simp [batchLoop, hsr]⟩

theorem contOkB_none_iff_chain (poes : List Poe) :
    contOkB none poes = true ↔ PoeChain poes := by
  induction poes with
  | nil => simp [contOkB, PoeChain]
  | cons p rest ih =>
      cases rest with
      | nil => simp [contOkB, PoeChain]
      | cons q rest2 =>
          have h1 : contOkB none (p :: q :: rest2) =
              (decide (p.new_state_root = q.prev_state_root) &&
                contOkB (some q.new_state_root) rest2) := rfl
          have h2 : contOkB none (q :: rest2) =
              contOkB (some q.new_state_root) rest2 := rfl
          constructor
          · intro h
            rw [h1] at h
            have hpq := of_decide_eq_true (Bool.and_elim_left h)
            have hrest := Bool.and_elim_right h
            rw [← h2] at hrest
            exact List.chain'_cons.mpr ⟨hpq, ih.mp hrest⟩
          · intro h
            obtain ⟨hpq, hrest⟩ := List.chain'_cons.mp h
            rw [h1]
            refine Bool.and_eq_true_iff.mpr ⟨decide_eq_true hpq, ?_⟩
            rw [← h2]
            exact ih.mpr hrest

theorem poe_batch_success (keccak : List Nat → Nat) (bh : Nat)
    (poes : List Poe) (hd lst : Poe) (hhd : poes.head? = some hd)
    (hlst : poes.getLast? = some lst) (hchain : PoeChain poes) :
    Poe.batch keccak bh poes =
      .ok { batch_hash := bh
            state_hash := keccak (poes.map Poe.state_hash)
            prev_state_root := hd.prev_state_root
            new_state_root := lst.new_state_root
            withdrawal_root := lst.withdrawal_root
            signature := List.replicate 65 0 } := by
  have hne : poes ≠ [] := by
    intro hnil
    rw [hnil] at hhd
    exact Option.noConfusion hhd
  have hlen : ¬ poes.length < 1 := by
    cases poes with
    | nil => exact absurd rfl hne
    | cons q t => simp
  have hok := batchLoop_ok poes 0 none none none
    ((contOkB_none_iff_chain poes).mpr hchain)
  have hprev : loopPrev none poes = some hd.prev_state_root := by
    unfold loopPrev
    rw [hhd]
    rfl
  have hnew : loopNew none poes = some lst.new_state_root := by
    unfold loopNew
    rw [hlst]
  have hwd : loopWd none poes = some lst.withdrawal_root := by
    unfold loopWd
    rw [hlst]
  unfold Poe.batch
  rw [if_neg hlen, hok, hprev, hnew, hwd]

/-- **C5.** `Poe::batch` errors on an empty list; for a non-empty list it
fails with an index-carrying continuity message exactly when some adjacent
pair violates `poes[i+1].prev_state_root = poes[i].new_state_root`; and when
the chain is continuous it returns the Poe with `prev_state_root` from the
first block, `new_state_root` and `withdrawal_root` from the last block, and
`state_hash` the keccak of all per-block `state_hash` values in order. -/
theorem poe_batch_spec (keccak : List Nat → Nat) (bh : Nat)
    (poes : List Poe) :
    (poes = [] → Poe.batch keccak bh poes = .error .emptyList)
      ∧ (poes ≠ [] →
          ((∃ i w g, Poe.batch keccak bh poes = .error (.continuity i w g))
            ↔ ¬ PoeChain poes))
      ∧ (∀ hd lst, poes.head? = some hd → poes.getLast? = some lst →
          PoeChain poes →
          Poe.batch keccak bh poes =
            .ok { batch_hash := bh
                  state_hash := keccak (poes.map Poe.state_hash)
                  prev_state_root := hd.prev_state_root
                  new_state_root := lst.new_state_root
                  withdrawal_root := lst.withdrawal_root
                  signature := List.replicate 65 0 }) := by
  refine ⟨?_, ?_, ?_⟩
  · intro h
    subst h
    rfl
  · intro hne
    constructor
    · rintro ⟨i, w, g, herr⟩ hchain
      obtain ⟨hd, hhd⟩ := Option.isSome_iff_exists.mp
        (by rwa [List.head?_isSome])
      obtain ⟨lst, hlst⟩ := Option.isSome_iff_exists.mp
        (by rwa [List.getLast?_isSome])
      rw [poe_batch_success keccak bh poes hd lst hhd hlst hchain] at herr
      exact Except.noConfusion herr
    · intro hnot
      have hcf : contOkB none poes = false := by
        cases hcb : contOkB none poes with
        | false => rfl
        | true => exact absurd ((contOkB_none_iff_chain poes).mp hcb) hnot
      obtain ⟨i, w, g, hig⟩ := batchLoop_error poes 0 none none none hcf
      have hlen : ¬ poes.length < 1 := by
        cases poes with
        | nil => exact absurd rfl hne
        | cons q t => simp
      refine ⟨i, w, g, ?_⟩
      unfold Poe.batch
      rw [if_neg hlen, hig]
  · exact fun hd lst hhd hlst hchain =>
      poe_batch_success keccak bh poes hd lst hhd hlst hchain

/-- Witness for C5: the empty list errors and a continuous two-block batch
folds as specified (`state_hash` values 5 and 6, hash = sum + 1000). -/
theorem poe_batch_spec_witness :
    Poe.batch (fun l => l.sum + 1000) 9 [] = .error .emptyList
      ∧ Poe.batch (fun l => l.sum + 1000) 9
          [⟨0, 5, 1, 2, 3, List.replicate 65 0⟩,
           ⟨0, 6, 2, 4, 7, List.replicate 65 0⟩] =
        .ok ⟨9, 1011, 1, 4, 7, List.replicate 65 0⟩ := by
  constructor
  · exact (poe_batch_spec (fun l => l.sum + 1000) 9 []).1 rfl
  · have h := (poe_batch_spec (fun l => l.sum + 1000) 9
        [⟨0, 5, 1, 2, 3, List.replicate 65 0⟩,
         ⟨0, 6, 2, 4, 7, List.replicate 65 0⟩]).2.2
      ⟨0, 5, 1, 2, 3, List.replicate 65 0⟩
      ⟨0, 6, 2, 4, 7, List.replicate 65 0⟩ rfl rfl
      (by exact List.chain'_cons.mpr ⟨rfl, List.chain'_singleton _⟩)
    exact h

/-- **C6.** For every input, precompile 1 (ecrecover) never fails and its
`required_gas` is the constant 3000; on the input right-padded/truncated to
128 bytes, the output is empty when any byte of `input[32..63]` (the 31
bytes at indices 32..62) is nonzero, when `r = 0` or `s = 0`, when `r ≥ N`
or `s ≥ N` for the secp256k1 order `N`, when `v = input[63]` is not 27 or
28, or when public-key recovery fails; otherwise it is the 32-byte keccak of
the recovered public key with its first 12 bytes zeroed.  `keccak` is any
32-byte hash. -/
theorem ecrecover_spec (keccak : List Nat → List Nat)
    (recover : List Nat → List Nat → Option (List Nat)) (input : List Nat)
    (hkec : ∀ x, (keccak x).length = 32) :
    ecrecoverRequiredGas input = 3000
      ∧ ecrecoverRun keccak recover input =
        .ok { exit_status := .Returned
              output := ecrecoverInner keccak recover input }
      ∧ (((∃ b ∈ (((input.take 128 ++ List.replicate (128 - input.length) 0).drop 32).take 31),
              b ≠ 0)
            ∨ beNat (((input.take 128 ++ List.replicate (128 - input.length) 0).drop 64).take 32) = 0
            ∨ beNat (((input.take 128 ++ List.replicate (128 - input.length) 0).drop 96).take 32) = 0
            ∨ SECP256K1N ≤ beNat (((input.take 128 ++ List.replicate (128 - input.length) 0).drop 64).take 32)
            ∨ SECP256K1N ≤ beNat (((input.take 128 ++ List.replicate (128 - input.length) 0).drop 96).take 32)
            ∨ ((input.take 128 ++ List.replicate (128 - input.length) 0).getD 63 0 ≠ 27
                ∧ (input.take 128 ++ List.replicate (128 - input.length) 0).getD 63 0 ≠ 28)
            ∨ recover
                (((input.take 128 ++ List.replicate (128 - input.length) 0).drop 64).take 64
                  ++ [(input.take 128 ++ List.replicate (128 - input.length) 0).getD 63 0])
                ((input.take 128 ++ List.replicate (128 - input.length) 0).take 32) = none) →
          ecrecoverInner keccak recover input = [])
      ∧ (∀ pubkey,
          (¬ ∃ b ∈ (((input.take 128 ++ List.replicate (128 - input.length) 0).drop 32).take 31),
              b ≠ 0) →
          beNat (((input.take 128 ++ List.replicate (128 - input.length) 0).drop 64).take 32) ≠ 0 →
          beNat (((input.take 128 ++ List.replicate (128 - input.length) 0).drop 96).take 32) ≠ 0 →
          beNat (((input.take 128 ++ List.replicate (128 - input.length) 0).drop 64).take 32) < SECP256K1N →
          beNat (((input.take 128 ++ List.replicate (128 - input.length) 0).drop 96).take 32) < SECP256K1N →
          ((input.take 128 ++ List.replicate (128 - input.length) 0).getD 63 0 = 27
            ∨ (input.take 128 ++ List.replicate (128 - input.length) 0).getD 63 0 = 28) →
          recover
              (((input.take 128 ++ List.replicate (128 - input.length) 0).drop 64).take 64
                ++ [(input.take 128 ++ List.replicate (128 - input.length) 0).getD 63 0])
              ((input.take 128 ++ List.replicate (128 - input.length) 0).take 32) = some pubkey →
          ecrecoverInner keccak recover input =
              List.replicate 12 0 ++ (keccak pubkey).drop 12
            ∧ (ecrecoverInner keccak recover input).length = 32) := by
  refine ⟨rfl, rfl, ?_, ?_⟩
  · intro hcase
    simp only [ecrecoverInner]
    split_ifs with h1 h2 h3
    · rfl
    · rfl
    · rfl
    · have hany : ¬ ∃ b ∈ (((input.take 128 ++ List.replicate (128 - input.length) 0).drop 32).take 31),
          b ≠ 0 := by
        intro hex
        apply h1
        rw [List.any_eq_true]
        obtain ⟨b, hb, hbne⟩ := hex
        exact ⟨b, hb, by simpa using hbne⟩
      rcases hcase with hex | hr | hs | hrN | hsN | hv | hrec
      · exact absurd hex hany
      · exact absurd (Or.inl hr) h2
      · exact absurd (Or.inr hs) h2
      · exact absurd (Or.inl hrN) h3
      · exact absurd (Or.inr (Or.inl hsN)) h3
      · exact absurd (Or.inr (Or.inr hv)) h3
      · rw [hrec]
  · intro pubkey hany hr hs hrN hsN hv hrec
    have hres : ecrecoverInner keccak recover input =
        List.replicate 12 0 ++ (keccak pubkey).drop 12 := by
      simp only [ecrecoverInner]
      split_ifs with h1 h2 h3
      · refine absurd ?_ hany
        obtain ⟨b, hb, hbne⟩ := List.any_eq_true.mp h1
        exact ⟨b, hb, by simpa using hbne⟩
      · rcases h2 with h2 | h2
        · exact absurd h2 hr
        · exact absurd h2 hs
      · rcases h3 with h3 | h3 | h3
        · exact absurd h3 (Nat.not_le.mpr hrN)
        · exact absurd h3 (Nat.not_le.mpr hsN)
        · rcases hv with hv | hv
          · exact absurd hv h3.1
          · exact absurd hv h3.2
      · rw [hrec]
    refine ⟨hres, ?_⟩
    rw [hres]
    simp [hkec pubkey]

theorem modexp_gas_floor_aux (eip : Bool) (input : List Nat) (g : Nat)
    (h : modexpRequiredGas eip input = .ok g) : 200 ≤ g := by
  simp only [modexpRequiredGas] at h
  repeat' split at h
  all_goals first
    | exact Except.noConfusion h
    | (simp only [Except.ok.injEq] at h
       subst h
       try simp only [] at *
       first
         | decide
         | omega)

theorem modexp_length_cap_aux (L : Nat) (input : List Nat)
    (hno : ¬(U64MOD ≤ beNat ((modexpPad input).take 32)
        ∨ U64MOD ≤ beNat (((modexpPad input).drop 32).take 32)
        ∨ U64MOD ≤ beNat (((modexpPad input).drop 64).take 32)))
    (hcap : L < beNat ((modexpPad input).take 32)
        ∨ L < beNat (((modexpPad input).drop 32).take 32)
        ∨ L < beNat (((modexpPad input).drop 64).take 32)) :
    modexpRun (some L) input = .error .lengthLimit := by
  have hb : (decide (L < beNat ((modexpPad input).take 32))
      || decide (L < beNat (((modexpPad input).drop 32).take 32))
      || decide (L < beNat (((modexpPad input).drop 64).take 32))) = true := by
    rcases hcap with h | h | h <;> simp [h]
  simp only [modexpRun]
  rw [if_neg hno, if_pos hb]

/-- **C7.** The modexp claim against the code: (1) at the input declaring
`base_len = 1`, `exp_len = 0`, `mod_len = 0` with one base byte, the parsed
modulus is 0 but `run` hits its own
`assert!(result.len() <= modulus_length)` (because
`BigUint::zero().to_bytes_be()` is the 1-byte `[0]`), instead of returning
the claimed `mod_len = 0` zero bytes; (2) `required_gas` never returns below
200; (3) with a length cap configured, a declared length above the cap makes
`run` fail with the "input length exceed limitation" error. -/
theorem modexp_run_and_gas_spec :
    modexpRun none modexpAssertInput = .error .assertFail
      ∧ (∀ (eip : Bool) (input : List Nat) (g : Nat),
          modexpRequiredGas eip input = .ok g → 200 ≤ g)
      ∧ (∀ (L : Nat) (input : List Nat),
          ¬(U64MOD ≤ beNat ((modexpPad input).take 32)
            ∨ U64MOD ≤ beNat (((modexpPad input).drop 32).take 32)
            ∨ U64MOD ≤ beNat (((modexpPad input).drop 64).take 32)) →
          (L < beNat ((modexpPad input).take 32)
            ∨ L < beNat (((modexpPad input).drop 32).take 32)
            ∨ L < beNat (((modexpPad input).drop 64).take 32)) →
          modexpRun (some L) input = .error .lengthLimit) :=
  ⟨by decide, modexp_gas_floor_aux, modexp_length_cap_aux⟩

/-- Witness for C7: the empty input prices at the 200 floor, and a scroll-like
32-byte cap set to 1 rejects a declared base length of 2. -/
theorem modexp_run_and_gas_spec_witness :
    modexpRequiredGas true [] = .ok 200 ∧ (200 : Nat) ≤ 200
      ∧ modexpRun (some 1) (List.replicate 31 0 ++ [2]) =
        .error .lengthLimit :=
  ⟨by decide,
   modexp_run_and_gas_spec.2.1 true [] 200 (by decide),
   modexp_run_and_gas_spec.2.2 1 (List.replicate 31 0 ++ [2]) (by decide)
     (by decide)⟩

/-- **C8 (counter-evaluation).** Precompile 6 (bn256 add) does *not* always
return successfully: on the 64-byte input encoding the point `(1, 1)` —
which is not on `y² = x³ + 3` — `read_point`'s `AffineG1::new(..).unwrap()`
panics (modelled as the `notOnCurve` error) for every possible group
addition backend, instead of producing the zero (or any) 64-byte output. -/
theorem bn256_add_invalid_point_panics
    (addAffine : BnG1 → BnG1 → Option (Nat × Nat)) :
    bn256AddRequiredGas bn256AddBadInput = 150
      ∧ bn256AddRun addAffine bn256AddBadInput = .error .notOnCurve := by
  refine ⟨rfl, ?_⟩
  have h0 : read_point
      (bn256AddBadInput.take 128 ++
        List.replicate (128 - bn256AddBadInput.length) 0) 0 =
      .error .notOnCurve := by decide
  simp only [bn256AddRun]
  rw [h0]

/-- **C9.** `calc_base_fee(gas_limit, gas_used, base_fee)` with
`target = gas_limit / 2`: unchanged at target; increased by
`max(1, base_fee·(gas_used−target)/target/8)` above target (provided the
256-bit products and the sum stay below `2^256` and `target > 0`, i.e. the
`U256` arithmetic does not panic); decreased by
`base_fee·(target−gas_used)/target/8` below target (floored at 0 — trivial
in ℕ), all with truncating division. -/
theorem calc_base_fee_spec (gl gu bf : Nat) :
    (gu = gl / 2 → calc_base_fee gl gu bf = .ok bf)
      ∧ (gl / 2 < gu → (gu - gl / 2) * bf < U256MOD → 0 < gl / 2 →
          max ((gu - gl / 2) * bf / (gl / 2) / 8) 1 + bf < U256MOD →
          calc_base_fee gl gu bf =
            .ok (bf + max 1 ((gu - gl / 2) * bf / (gl / 2) / 8)))
      ∧ (gu < gl / 2 → (gl / 2 - gu) * bf < U256MOD →
          calc_base_fee gl gu bf =
            .ok (bf - (gl / 2 - gu) * bf / (gl / 2) / 8)) := by
  refine ⟨?_, ?_, ?_⟩
  · intro h
    simp [calc_base_fee, h]
  · intro h1 h2 h3 h4
    simp only [calc_base_fee]
    rw [if_neg (by omega), if_pos h1, if_neg (Nat.not_le.mpr h2),
      if_neg (by omega), if_neg (Nat.not_le.mpr h4)]
    rw [Nat.max_comm, Nat.add_comm]
  · intro h1 h2
    have hpos : 0 < gl / 2 := by omega
    have hnum : (gl / 2 - gu) * bf / (gl / 2) / 8 ≤ bf := by
      have s1 : (gl / 2 - gu) * bf ≤ gl / 2 * bf :=
        Nat.mul_le_mul_right bf (Nat.sub_le _ _)
      have s2 : (gl / 2 - gu) * bf / (gl / 2) ≤ gl / 2 * bf / (gl / 2) :=
        Nat.div_le_div_right s1
      have s3 : gl / 2 * bf / (gl / 2) = bf := by
        rw [Nat.mul_comm]
        exact Nat.mul_div_cancel bf hpos
      have s4 : (gl / 2 - gu) * bf / (gl / 2) ≤ bf := by omega
      calc (gl / 2 - gu) * bf / (gl / 2) / 8 ≤ (gl / 2 - gu) * bf / (gl / 2) :=
            Nat.div_le_self _ _
        _ ≤ bf := s4
    simp only [calc_base_fee]
    rw [if_neg (by omega), if_neg (by omega), if_neg (Nat.not_le.mpr h2),
      if_neg (by omega), if_neg (Nat.not_lt.mpr hnum)]
    rw [Nat.max_eq_left (Nat.zero_le _)]

/-- Witness for C9: `gas_limit = 20`, `gas_used = 15`, `base_fee = 8`
(increase case, delta floored to 1), and `gas_used = 0` (decrease case). -/
theorem calc_base_fee_spec_witness :
    calc_base_fee 20 15 8 = .ok (8 + max 1 ((15 - 20 / 2) * 8 / (20 / 2) / 8))
      ∧ calc_base_fee 20 0 80 = .ok (80 - (20 / 2 - 0) * 80 / (20 / 2) / 8) :=
  ⟨(calc_base_fee_spec 20 15 8).2.1 (by decide) (by decide) (by decide)
      (by decide),
   (calc_base_fee_spec 20 0 80).2.2 (by decide) (by decide)⟩

/-- **C10.** Any input whose length differs from 213 bytes is priced at 0 gas
by `PrecompileBlake2F::required_gas` while `run` rejects it with the
incorrect-length error; for a 213-byte input, `required_gas` is the
big-endian u32 read from bytes 0..4. -/
theorem blake2f_gas_and_length_check (input : List Nat) :
    (input.length ≠ 213 →
        blake2fRequiredGas input = 0
          ∧ blake2fRun input = .error .errBlake2IncorrectLength)
      ∧ (input.length = 213 →
          blake2fRequiredGas input = beNat (input.take 4)) := by
  constructor
  · intro h
    constructor
    · simp [blake2fRequiredGas, h]
    · simp [blake2fRun, h]
  · intro h
    simp [blake2fRequiredGas, h]

/-- Witness for C10: the empty input (length 0) and the all-zero 213-byte
input. -/
theorem blake2f_gas_and_length_check_witness :
    blake2fRequiredGas [] = 0
      ∧ blake2fRun [] = .error .errBlake2IncorrectLength
      ∧ blake2fRequiredGas (List.replicate 213 0) =
        beNat ((List.replicate 213 0).take 4) :=
  ⟨((blake2f_gas_and_length_check []).1 (by decide)).1,
   ((blake2f_gas_and_length_check []).1 (by decide)).2,
   (blake2f_gas_and_length_check (List.replicate 213 0)).2 (by decide)⟩

/-- Witness for C6: a constant 32-byte hash, an always-failing recovery, and
the empty input (whose padded `r` is 0, so the output is empty). -/
theorem ecrecover_spec_witness :
    ecrecoverRequiredGas [] = 3000
      ∧ ecrecoverInner (fun _ => List.replicate 32 7) (fun _ _ => none) [] =
        [] := by
  have h := ecrecover_spec (fun _ => List.replicate 32 7) (fun _ _ => none) []
    (fun x => by simp)
  refine ⟨h.1, ?_⟩
  apply h.2.2.1
  right
  left
  decide
